import Mathlib

set_option maxHeartbeats 1000000
set_option maxRecDepth 4000

/-!
Verification development for the keyword_fighter service layer
(src/services/keywordService.ts).

The file shallowly embeds the resilient multi-proxy fetcher
(`fetchWithProxies` and its helpers), the tolerant JSON extractor
(`extractJsonFromText`), the Naver/Google related-keyword aggregation
(`fetchRelatedKeywords`), and the SERP-result cleaning of
`generateRelatedKeywords`.

Modelling conventions:
- Network effects are abstracted by an outcome oracle
  `outcome : Nat → Nat → AttemptOutcome` giving, for each (strategy index,
  attempt number), what the single fetch attempt of the inner loop does:
  throw a JS `Error`, throw a non-`Error` value, or deliver a `Response`
  (ok flag, status) whose unwrapped body is a string.
- The observable behaviour of a run is a result (`Except` of the thrown
  error message or the interpreted payload) together with a trace of
  events: one `Ev.fetchAttempt` per call of `fetchWithTimeout` and one
  `Ev.sleep` per `setTimeout` retry delay.
- `JSON.parse` is a platform builtin; it is modelled here by `jsonParse`,
  a recursive-descent parser for the JSON grammar restricted to integer
  numerals (no fraction/exponent lexemes; no claim exercises them).
  JavaScript string methods (`trim`, `substring`, `lastIndexOf`,
  `includes`) and the two regex replacements (citation markers, HTML
  tags) are modelled character-by-character after their ECMAScript
  semantics, with `trim` restricted to the ASCII whitespace characters.
-/

/-- Prefix test on character lists (used to model `String.prototype.includes`
and literal pattern searches). -/
def leadsWith : List Char → List Char → Bool
| [], _ => true
| _ :: _, [] => false
| a :: as, b :: bs => a == b && leadsWith as bs

/-- Substring occurrence test on character lists. -/
def containsSub (needle : List Char) : List Char → Bool
| [] => leadsWith needle []
| c :: t => leadsWith needle (c :: t) || containsSub needle t

/-- Model of JavaScript `hay.includes(needle)`. -/
def strIncludes (hay needle : String) : Bool :=
  containsSub needle.data hay.data

/-- First index at which `pat` occurs in the list, starting the count at `i`. -/
def findSubAux (pat : List Char) : List Char → Nat → Option Nat
| [], i => if leadsWith pat [] then some i else none
| c :: t, i => if leadsWith pat (c :: t) then some i else findSubAux pat t (i + 1)

/-- Whitespace recognised by the model of `String.prototype.trim` (the ASCII
subset of the ECMAScript white-space set). -/
def isTrimWs (c : Char) : Bool :=
  c == ' ' || c == '\t' || c == '\n' || c == '\r' || c.toNat == 11 || c.toNat == 12

/-- Drop a trailing run of trim-whitespace. -/
def dropWsEnd : List Char → List Char
| [] => []
| c :: t =>
  let r := dropWsEnd t
  if r.isEmpty && isTrimWs c then [] else c :: r

/-- Model of `String.prototype.trim` on character lists. -/
def trimList (l : List Char) : List Char :=
  dropWsEnd (l.dropWhile isTrimWs)

/-- Model of `String.prototype.trim`. -/
def trimStr (s : String) : String :=
  String.mk (trimList s.data)

/-- ASCII decimal digit test (the regex class `\d`). -/
def isDigitC (c : Char) : Bool :=
  48 ≤ c.toNat && c.toNat ≤ 57

/-- Concatenation over a list (JS `Array.prototype.flat`-style helper). -/
def flatList {α β : Type} (f : α → List β) : List α → List β
| [] => []
| a :: t => f a ++ flatList f t

/- ### The resilient fetcher (keywordService.ts lines 41-189) -/

/-- `MAX_RETRIES_PER_PROXY` from the source: 1 initial attempt + 1 retry. -/
def MAX_RETRIES_PER_PROXY : Nat := 2

/-- `RETRY_DELAY_MS` from the source. -/
def RETRY_DELAY_MS : Nat := 1000

/-- `FETCH_TIMEOUT_MS` from the source. -/
def FETCH_TIMEOUT_MS : Nat := 15000

/-- A JavaScript `Error` value as far as `fetchWithProxies` observes it:
its `.message` and whether it is an `instanceof TypeError`. -/
structure JsError where
  message : String
  isTypeError : Bool
deriving DecidableEq

/-- Outcome of one attempt of the inner loop of `fetchWithProxies`:
either the awaited chain `fetchWithTimeout` / `proxy.parseResponse`
throws an `Error`, throws a non-`Error` value, or yields a response with
the given `ok` flag and `status` whose unwrapped body is `content`. -/
inductive AttemptOutcome where
| throwErr (e : JsError)
| throwOther
| response (ok : Bool) (status : Nat) (content : String)
deriving DecidableEq

/-- Observable events of a `fetchWithProxies` run: a fetch attempt
(strategy index, attempt number) or a retry delay. -/
inductive Ev where
| fetchAttempt (pIdx attempt : Nat)
| sleep (ms : Nat)
deriving DecidableEq

/-- Result of the inner per-strategy loop: an early `return` with the
interpreted payload, or falling through with the last recorded error. -/
inductive InnerRes (α : Type) where
| success (a : α)
| exhausted (lastErr : Option JsError)

/-- The error recorded for `!response.ok` (line 154). -/
def httpError (status : Nat) : JsError :=
  ⟨"HTTP 오류! 상태: " ++ toString status ++ ".", false⟩

/-- The error recorded for an empty unwrapped body (line 160). -/
def emptyContentError : JsError :=
  ⟨"프록시에서 빈 콘텐츠를 반환했습니다.", false⟩

/-- The error recorded when a non-`Error` value is thrown (line 169). -/
def unknownRequestError : JsError :=
  ⟨"알 수 없는 요청 오류가 발생했습니다.", false⟩

/-- Final message for a timeout-classified failure (line 181). -/
def TIMEOUT_ERROR_MSG : String :=
  "요청 시간이 초과되었습니다. 네트워크 연결이 느리거나 모든 프록시 서버가 응답하지 않습니다."

/-- Final message for a connectivity-classified failure (line 184). -/
def CONNECTIVITY_ERROR_MSG : String :=
  "네트워크 요청에 실패했습니다. 모든 프록시 서버에 연결할 수 없습니다. 인터넷 연결, 브라우저의 광고 차단기(AdBlocker) 또는 보안 설정을 확인하거나 잠시 후 다시 시도해 주세요."

/-- Final generic message embedding the last error (line 186). -/
def allFailedMsg (e : JsError) : String :=
  "모든 프록시 서버에서 데이터를 가져오는 데 실패했습니다. 마지막 오류: " ++
    (if e.message = "" then "알 수 없는 오류" else e.message) ++ ". 잠시 후 다시 시도해 주세요."

/-- Final message when no error was ever recorded (line 188). -/
def NO_DATA_MSG : String := "데이터를 가져오지 못했습니다."

/-- The error classification at the end of `fetchWithProxies`
(lines 179-188): `Timeout` in the last message wins, then a fetch
`TypeError`, then the generic message embedding the last error text. -/
def finalMessage : Option JsError → String
| some e =>
  if strIncludes e.message "Timeout" then TIMEOUT_ERROR_MSG
  else if e.isTypeError && strIncludes e.message "fetch" then CONNECTIVITY_ERROR_MSG
  else allFailedMsg e
| none => NO_DATA_MSG

/-- The attempt numbers iterated by the inner `for` loop
(`for attempt = 1; attempt <= MAX_RETRIES_PER_PROXY`). -/
def attemptNums : List Nat :=
  (List.range MAX_RETRIES_PER_PROXY).map (fun i => i + 1)

/-- The inner per-strategy loop of `fetchWithProxies` (lines 150-175):
`!response.ok` records an HTTP error and breaks to the next strategy; an
empty unwrapped body records the error and goes straight to the next
attempt (a bare `continue`, no delay); a thrown value records the error
and, when attempts remain, sleeps `RETRY_DELAY_MS` before retrying; a
non-empty body returns the interpreted payload. -/
def runAttemptList {α : Type} (outcome : Nat → Nat → AttemptOutcome) (interp : String → α)
    (pIdx : Nat) : List Nat → Option JsError → InnerRes α × List Ev
| [], lastErr => (.exhausted lastErr, [])
| a :: rest, _lastErr =>
  match outcome pIdx a with
  | .response false status _ =>
      (.exhausted (some (httpError status)), [.fetchAttempt pIdx a])
  | .response true _ content =>
      if content = "" then
        let r := runAttemptList outcome interp pIdx rest (some emptyContentError)
        (r.1, .fetchAttempt pIdx a :: r.2)
      else
        (.success (interp content), [.fetchAttempt pIdx a])
  | .throwErr e =>
      let r := runAttemptList outcome interp pIdx rest (some e)
      if a < MAX_RETRIES_PER_PROXY then
        (r.1, .fetchAttempt pIdx a :: .sleep RETRY_DELAY_MS :: r.2)
      else
        (r.1, .fetchAttempt pIdx a :: r.2)
  | .throwOther =>
      let r := runAttemptList outcome interp pIdx rest (some unknownRequestError)
      if a < MAX_RETRIES_PER_PROXY then
        (r.1, .fetchAttempt pIdx a :: .sleep RETRY_DELAY_MS :: r.2)
      else
        (r.1, .fetchAttempt pIdx a :: r.2)

/-- The outer strategy loop of `fetchWithProxies` (lines 147-188) over a
list of strategy indices, threading the mutable `lastKnownError`. -/
def runProxyList {α : Type} (outcome : Nat → Nat → AttemptOutcome) (interp : String → α) :
    List Nat → Option JsError → Except String α × List Ev
| [], lastErr => (.error (finalMessage lastErr), [])
| p :: rest, lastErr =>
  match runAttemptList outcome interp p attemptNums lastErr with
  | (.success a, evs) => (.ok a, evs)
  | (.exhausted le, evs) =>
    let r := runProxyList outcome interp rest le
    (r.1, evs ++ r.2)

/-- `fetchWithProxies`, generic in the number of strategies (the source
iterates the fixed 3-element `PROXIES` list; strategy identity is folded
into the outcome oracle). Returns the result together with the event
trace. -/
def fetchWithProxies {α : Type} (numProxies : Nat) (outcome : Nat → Nat → AttemptOutcome)
    (interp : String → α) : Except String α × List Ev :=
  runProxyList outcome interp (List.range numProxies) none

/-- The expected trace of one strategy whose two attempts both throw:
attempt 1, the retry delay, attempt 2. -/
def failTrace (ps : List Nat) : List Ev :=
  flatList (fun p => [.fetchAttempt p 1, .sleep RETRY_DELAY_MS, .fetchAttempt p 2]) ps

/-- Event classifier: is this event a fetch attempt? -/
def isFetchEv : Ev → Bool
| .fetchAttempt _ _ => true
| .sleep _ => false

/-- Last element of a strategy-index list (0 for the empty list). -/
def lastOf : List Nat → Nat
| [] => 0
| [p] => p
| _ :: q :: t => lastOf (q :: t)

/-- An outcome that makes the attempt succeed: an ok response with a
non-empty unwrapped body. -/
def isSuccessOutcome : AttemptOutcome → Bool
| .response okFlag _ content => okFlag && !(decide (content = ""))
| _ => false

/-- An outcome that throws (caught by the `catch` block). -/
def isThrowOutcome : AttemptOutcome → Bool
| .throwErr _ => true
| .throwOther => true
| .response _ _ _ => false

/-- An outcome that delivers an ok response with an empty unwrapped body. -/
def isEmptyOkOutcome : AttemptOutcome → Bool
| .response true _ content => decide (content = "")
| _ => false

/-- Trace predicate for claim C2: every fetch attempt belongs to a
strategy before `k`, or is the first attempt of strategy `k`. -/
def attemptsWithin (k : Nat) : Ev → Bool
| .fetchAttempt p a => decide (p < k) || (decide (p = k) && decide (a = 1))
| .sleep _ => true

/-- Trace predicate: every fetch attempt belongs to strategy `p`. -/
def evOfStrategy (p : Nat) : Ev → Bool
| .fetchAttempt q _ => q == p
| .sleep _ => true

/-- Trace predicate: every fetch attempt belongs to a strategy in `ps`. -/
def evOfStrategies (ps : List Nat) : Ev → Bool
| .fetchAttempt q _ => ps.contains q
| .sleep _ => true

/-- Checks, given the preceding event, that a retry attempt (attempt
number ≥ 2) is immediately preceded by the retry delay. -/
def retryNeedsSleep : Ev → Ev → Bool
| prev, .fetchAttempt _ a => decide (a ≤ 1) || (prev == Ev.sleep RETRY_DELAY_MS)
| _, .sleep _ => true

/-- Tail of the check of `retriesDelayedB`. -/
def retriesDelayedFrom : Ev → List Ev → Bool
| _, [] => true
| prev, e :: rest => retryNeedsSleep prev e && retriesDelayedFrom e rest

/-- Formalisation of "every retry of the same strategy is preceded by a
1-second delay": in the trace, every fetch attempt with attempt number
≥ 2 is immediately preceded by a `sleep RETRY_DELAY_MS` event. -/
def retriesDelayedB : List Ev → Bool
| [] => true
| e :: rest =>
  (match e with
   | .fetchAttempt _ a => decide (a ≤ 1)
   | .sleep _ => true) && retriesDelayedFrom e rest

/- ### JSON values and a model of JSON.parse -/

/-- Parsed JSON values (`JSON.parse` results). Numbers are restricted to
integers: the parser model rejects fraction/exponent lexemes, which no
claim exercises (floating point is out of scope). -/
inductive JsValue where
| jnull
| jbool (b : Bool)
| jnum (n : Int)
| jstr (s : String)
| jarr (elems : List JsValue)
| jobj (fields : List (String × JsValue))

/-- JSON insignificant whitespace. -/
def isJsonWs (c : Char) : Bool :=
  c == ' ' || c == '\t' || c == '\n' || c == '\r'

/-- Skip JSON whitespace. -/
def skipWs (l : List Char) : List Char :=
  l.dropWhile isJsonWs

/-- Hex digit value (digits, then lowercase, then uppercase letters). -/
def hexVal (c : Char) : Option Nat :=
  let n := c.toNat
  if 48 ≤ n && n ≤ 57 then some (n - 48)
  else if 97 ≤ n && n ≤ 102 then some (n - 87)
  else if 65 ≤ n && n ≤ 70 then some (n - 55)
  else none

/-- Four hex digits to a code point. -/
def hex4 (a b c d : Char) : Option Nat :=
  match hexVal a, hexVal b, hexVal c, hexVal d with
  | some x, some y, some z, some w => some (x * 4096 + (y * 256 + (z * 16 + w)))
  | _, _, _, _ => none

/-- Single-character JSON string escapes. -/
def escChar (c : Char) : Option Char :=
  if c = '\x22' then some '\x22'
  else if c = '\\' then some '\\'
  else if c = '/' then some '/'
  else if c = 'b' then some '\x08'
  else if c = 'f' then some '\x0c'
  else if c = 'n' then some '\n'
  else if c = 'r' then some '\r'
  else if c = 't' then some '\t'
  else none

/-- JSON string body parser (after the opening quote), fuel-indexed;
returns the decoded characters and the rest after the closing quote. -/
def parseStringBody : Nat → List Char → Except Unit (List Char × List Char)
| 0, _ => .error ()
| _, [] => .error ()
| fuel + 1, c :: t =>
  if c = '\x22' then .ok ([], t)
  else if c = '\\' then
    match t with
    | [] => .error ()
    | e :: t2 =>
      if e = 'u' then
        match t2 with
        | h1 :: h2 :: h3 :: h4 :: t3 =>
          match hex4 h1 h2 h3 h4 with
          | some n =>
            match parseStringBody fuel t3 with
            | .ok (cs, r) => .ok (Char.ofNat n :: cs, r)
            | .error _ => .error ()
          | none => .error ()
        | _ => .error ()
      else
        match escChar e with
        | some ch =>
          match parseStringBody fuel t2 with
          | .ok (cs, r) => .ok (ch :: cs, r)
          | .error _ => .error ()
        | none => .error ()
  else if c.toNat < 32 then .error ()
  else
    match parseStringBody fuel t with
    | .ok (cs, r) => .ok (c :: cs, r)
    | .error _ => .error ()

/-- Decimal digit run to a natural number (accumulator form). -/
def digitsToNatAcc : Nat → List Char → Nat
| acc, [] => acc
| acc, c :: t => digitsToNatAcc (10 * acc + (c.toNat - 48)) t

/-- Decimal digit run to a natural number. -/
def digitsToNat (l : List Char) : Nat :=
  digitsToNatAcc 0 l

/-- Reject fraction/exponent continuations (outside the integer model)
and deliver the integer. -/
def afterIntPart (neg : Bool) (n : Nat) (rest : List Char) : Except Unit (Int × List Char) :=
  match rest with
  | '.' :: _ => .error ()
  | 'e' :: _ => .error ()
  | 'E' :: _ => .error ()
  | _ => .ok (if neg then -(n : Int) else (n : Int), rest)

/-- JSON number parser (integer subset): `-?(0|[1-9][0-9]*)`. -/
def parseNumber (l : List Char) : Except Unit (Int × List Char) :=
  let sl := match l with
    | '-' :: t => (true, t)
    | _ => (false, l)
  match sl.2 with
  | c :: t =>
    if c = '0' then afterIntPart sl.1 0 t
    else if isDigitC c then
      afterIntPart sl.1 (digitsToNat (c :: t.takeWhile isDigitC)) (t.dropWhile isDigitC)
    else .error ()
  | [] => .error ()

mutual

/-- Fuel-indexed JSON value parser (model of the value production of
`JSON.parse`). -/
def parseValue : Nat → List Char → Except Unit (JsValue × List Char)
| 0, _ => .error ()
| fuel + 1, l =>
  match skipWs l with
  | [] => .error ()
  | c :: t =>
    if c = '\x7b' then
      match skipWs t with
      | '\x7d' :: r => .ok (.jobj [], r)
      | t1 =>
        match parseMembers fuel t1 with
        | .ok (fs, r) => .ok (.jobj fs, r)
        | .error _ => .error ()
    else if c = '[' then
      match skipWs t with
      | ']' :: r => .ok (.jarr [], r)
      | t1 =>
        match parseElems fuel t1 with
        | .ok (es, r) => .ok (.jarr es, r)
        | .error _ => .error ()
    else if c = '\x22' then
      match parseStringBody (t.length + 1) t with
      | .ok (cs, r) => .ok (.jstr (String.mk cs), r)
      | .error _ => .error ()
    else if c = 't' then
      if leadsWith ['r', 'u', 'e'] t then .ok (.jbool true, t.drop 3) else .error ()
    else if c = 'f' then
      if leadsWith ['a', 'l', 's', 'e'] t then .ok (.jbool false, t.drop 4) else .error ()
    else if c = 'n' then
      if leadsWith ['u', 'l', 'l'] t then .ok (.jnull, t.drop 3) else .error ()
    else
      match parseNumber (c :: t) with
      | .ok (n, r) => .ok (.jnum n, r)
      | .error _ => .error ()

/-- Fuel-indexed parser of object members (after `{` and any first
whitespace, when the object is non-empty). -/
def parseMembers : Nat → List Char → Except Unit (List (String × JsValue) × List Char)
| 0, _ => .error ()
| fuel + 1, l =>
  match skipWs l with
  | '\x22' :: t =>
    match parseStringBody (t.length + 1) t with
    | .ok (ks, r1) =>
      (match skipWs r1 with
      | ':' :: r2 =>
        match parseValue fuel r2 with
        | .ok (v, r3) =>
          (match skipWs r3 with
          | ',' :: r4 =>
            match parseMembers fuel r4 with
            | .ok (fs, r5) => .ok ((String.mk ks, v) :: fs, r5)
            | .error _ => .error ()
          | '\x7d' :: r4 => .ok ([(String.mk ks, v)], r4)
          | _ => .error ())
        | .error _ => .error ()
      | _ => .error ())
    | .error _ => .error ()
  | _ => .error ()

/-- Fuel-indexed parser of array elements (after `[`, when the array is
non-empty). -/
def parseElems : Nat → List Char → Except Unit (List JsValue × List Char)
| 0, _ => .error ()
| fuel + 1, l =>
  match parseValue fuel l with
  | .ok (v, r) =>
    (match skipWs r with
    | ',' :: r2 =>
      match parseElems fuel r2 with
      | .ok (es, r3) => .ok (v :: es, r3)
      | .error _ => .error ()
    | ']' :: r2 => .ok ([v], r2)
    | _ => .error ())
  | .error _ => .error ()

end

/-- Model of `JSON.parse`: parse one value and require only whitespace
after it. -/
def jsonParse (l : List Char) : Except Unit JsValue :=
  match parseValue (2 * l.length + 2) l with
  | .ok (v, rest) => if (skipWs rest).isEmpty then .ok v else .error ()
  | .error _ => .error ()

/-- JS object property read: later duplicate keys win (as in
`JSON.parse`). -/
def lookupLast (fs : List (String × JsValue)) (k : String) : Option JsValue :=
  fs.foldl (fun acc kv => if kv.1 = k then some kv.2 else acc) none

/- ### The tolerant JSON extractor (keywordService.ts lines 52-126) -/

/-- The three-backtick fence. -/
def fenceChars : List Char := "```".data

/-- The capture of the first match of the fence regex
(three backticks, an optional `json` tag, lazily up to the next fence);
the surrounding `\s*` of the regex is accounted for by the `trim` the
caller applies. -/
def fencedCapture (l : List Char) : Option (List Char) :=
  match findSubAux fenceChars l 0 with
  | none => none
  | some i =>
    let afterF := l.drop (i + 3)
    let body := if leadsWith "json".data afterF then afterF.drop 4 else afterF
    match findSubAux fenceChars body 0 with
    | none => none
    | some j => some (body.take j)

/-- The search text of the extractor: the trimmed input, replaced by the
trimmed fenced capture when a fenced block with non-empty (truthy)
capture is found (lines 53-59). -/
def searchTextOf (text : String) : List Char :=
  let js0 := trimList text.data
  match fencedCapture js0 with
  | some cap => if (trimList cap).isEmpty then js0 else trimList cap
  | none => js0

/-- `jsonString.search(/[[{]/)`: first index (and character) of `[` or
`{` (lines 61-66). -/
def searchStartAux : List Char → Nat → Option (Nat × Char)
| [], _ => none
| c :: t, i =>
  if c = '[' || c = '\x7b' then some (i, c) else searchStartAux t (i + 1)

/-- First `[`-or-`{` position of the search text. -/
def searchStart (l : List Char) : Option (Nat × Char) :=
  searchStartAux l 0

/-- The string-aware depth scan of the extractor (lines 68-101): walks
the characters from the start index, skipping the character after a
backslash, toggling the in-string flag on quotes, counting only the
start/end characters outside strings, and answering the index where the
counter returns to zero. -/
def scanLoop (startChar endChar : Char) : List Char → Nat → Bool → Bool → Int → Option Nat
| [], _, _, _, _ => none
| c :: t, i, inString, escapeChar, openCount =>
  if escapeChar then scanLoop startChar endChar t (i + 1) inString false openCount
  else if c = '\\' then scanLoop startChar endChar t (i + 1) inString true openCount
  else
    let inString2 := if c = '\x22' then !inString else inString
    let openCount2 :=
      if !inString2 then
        if c = startChar then openCount + 1
        else if c = endChar then openCount - 1
        else openCount
      else openCount
    if openCount2 = 0 then some i
    else scanLoop startChar endChar t (i + 1) inString2 false openCount2

/-- `lastIndexOf` accumulator. -/
def lastIndexOfCAux (c : Char) : List Char → Nat → Int → Int
| [], _, best => best
| x :: t, i, best => lastIndexOfCAux c t (i + 1) (if x = c then (i : Int) else best)

/-- Model of `String.prototype.lastIndexOf` for a single character
(-1 when absent). -/
def lastIndexOfC (l : List Char) (c : Char) : Int :=
  lastIndexOfCAux c l 0 (-1)

/-- The fallback end index of the extractor (lines 104-108): the later of
the last `}` and the last `]` of the search text, -1 when neither occurs. -/
def fallbackEnd (l : List Char) : Int :=
  max (lastIndexOfC l '\x7d') (lastIndexOfC l ']')

/-- Model of `String.prototype.substring` (clamps to the bounds and swaps
the arguments when start exceeds end). -/
def jsSubstring (l : List Char) (a b : Int) : List Char :=
  let n := l.length
  let a2 := min a.toNat n
  let b2 := min b.toNat n
  (l.drop (min a2 b2)).take (max a2 b2 - min a2 b2)

/-- The slice of `l` from index `s` through index `e` inclusive (empty
when `e < s`): the slicing the specification describes. -/
def sliceIncl (l : List Char) (s : Nat) (e : Int) : List Char :=
  (l.drop s).take (e.toNat + 1 - s)

/-- Extraction failure: no `[` or `{` (line 63). -/
def NO_JSON_MSG : String := "AI 응답에서 유효한 JSON을 찾을 수 없습니다."

/-- Extraction failure: no end index (line 111). -/
def NO_JSON_END_MSG : String := "AI 응답에서 유효한 JSON의 끝을 찾을 수 없습니다."

/-- Extraction failure: `JSON.parse` rejected the candidate (lines
118-124; the source embeds the parser message, which the model elides). -/
def BAD_JSON_MSG : String := "AI가 반환한 데이터의 형식이 잘못되었습니다."

/-- `extractJsonFromText` up to the candidate string handed to
`JSON.parse` (lines 52-114). -/
def extractCandidate (text : String) : Except String (List Char) :=
  let js := searchTextOf text
  match searchStart js with
  | none => .error NO_JSON_MSG
  | some (startIndex, startChar) =>
    let endChar := if startChar = '[' then ']' else '\x7d'
    let endIndex : Int :=
      match scanLoop startChar endChar (js.drop startIndex) startIndex false false 0 with
      | some e => (e : Int)
      | none => fallbackEnd js
    if endIndex = -1 then .error NO_JSON_END_MSG
    else .ok (jsSubstring js (startIndex : Int) (endIndex + 1))

/-- `extractJsonFromText` (lines 52-126): candidate extraction followed
by `JSON.parse`. -/
def extractJsonFromText (text : String) : Except String JsValue :=
  match extractCandidate text with
  | .error m => .error m
  | .ok cand =>
    match jsonParse cand with
    | .ok v => .ok v
    | .error _ => .error BAD_JSON_MSG

/- ### Citation-marker cleaning (regex /\[\d+(, ?\d+)*\]/g) -/

/-- After the leading digits of a citation marker: iterate groups
`, ?\d+` and close with `]`, following the deterministic backtracking of
the regex; answers the rest after the match. Fuel-indexed. -/
def afterNumFuel : Nat → List Char → Option (List Char)
| 0, _ => none
| fuel + 1, l =>
  match l with
  | ']' :: r => some r
  | ',' :: r =>
    (match r with
    | ' ' :: d :: r2 => if isDigitC d then afterNumFuel fuel (r2.dropWhile isDigitC) else none
    | d :: r2 => if isDigitC d then afterNumFuel fuel (r2.dropWhile isDigitC) else none
    | [] => none)
  | _ => none

/-- Match of the citation-marker tail `\d+(, ?\d+)*\]` at the head of
`t` (the text after a `[`); answers the rest after the match. -/
def matchCitationTail (t : List Char) : Option (List Char) :=
  match t with
  | d :: t2 => if isDigitC d then afterNumFuel (t.length + 1) (t2.dropWhile isDigitC) else none
  | [] => none

/-- Single left-to-right pass of `.replace(/\[\d+(, ?\d+)*\]/g, '')`,
fuel-indexed. -/
def stripCitationsFuel : Nat → List Char → List Char
| 0, l => l
| _, [] => []
| fuel + 1, c :: t =>
  if c = '[' then
    match matchCitationTail t with
    | some rest => stripCitationsFuel fuel rest
    | none => c :: stripCitationsFuel fuel t
  else c :: stripCitationsFuel fuel t

/-- `.replace(/\[\d+(, ?\d+)*\]/g, '')` on a character list. -/
def stripCitations (l : List Char) : List Char :=
  stripCitationsFuel (l.length + 1) l

/-- Does the citation regex match anywhere in the list? -/
def containsCitation : List Char → Bool
| [] => false
| c :: t => (decide (c = '[') && (matchCitationTail t).isSome) || containsCitation t

/-- Model of `s.replace(citationRegex, '')`. -/
def stripCitationsStr (s : String) : String :=
  String.mk (stripCitations s.data)

/-- The cleaning applied to every SERP string:
`.replace(citationRegex, '').trim()`. -/
def cleanString (s : String) : String :=
  trimStr (stripCitationsStr s)

/- ### generateRelatedKeywords post-processing (lines 261-283) -/

/-- A cleaned People-Also-Ask item. -/
structure PaaItem where
  question : String
  answer : String
  content_gap_analysis : String
deriving DecidableEq

/-- The value `generateRelatedKeywords` resolves with. -/
structure GoogleSerpData where
  related_searches : List String
  people_also_ask : List PaaItem
deriving DecidableEq

/-- Prefix the outer `catch` of `generateRelatedKeywords` puts in front
of the rethrown message (line 288). -/
def GEN_FAIL_PREFIX : String := "AI 모델로부터 검색 결과를 가져오는 데 실패했습니다. 오류: "

/-- Shape-validation failure (line 282). -/
def FORMAT_ERR_MSG : String := "API 응답이 예상된 형식이 아닙니다."

/-- A thrown `TypeError` (e.g. `.replace` on a non-string), as a message. -/
def TYPE_ERR_MSG : String := "TypeError"

/-- JS falsiness of a JSON value. -/
def jsFalsy : JsValue → Bool
| .jnull => true
| .jbool b => !b
| .jnum n => decide (n = 0)
| .jstr s => decide (s = "")
| .jarr _ => false
| .jobj _ => false

/-- JS property read `v.k`: `undefined` (`none`) on non-objects except
`null`, which throws a `TypeError`. -/
def jsGetField : JsValue → String → Except String (Option JsValue)
| .jnull, _ => .error TYPE_ERR_MSG
| .jobj fs, k => .ok (lookupLast fs k)
| _, _ => .ok none

/-- `(x || '')`: the empty string for `undefined` and falsy values. -/
def orEmptyStr : Option JsValue → JsValue
| none => .jstr ""
| some v => if jsFalsy v then .jstr "" else v

/-- `.replace(citationRegex, '').trim()` — a `TypeError` on values that
are not strings. -/
def jsReplaceTrim : JsValue → Except String String
| .jstr s => .ok (cleanString s)
| _ => .error TYPE_ERR_MSG

/-- `(paa.k || '').replace(citationRegex, '').trim()`. -/
def cleanField (item : JsValue) (k : String) : Except String String :=
  match jsGetField item k with
  | .error e => .error e
  | .ok v => jsReplaceTrim (orEmptyStr v)

/-- The per-item cleaning of `people_also_ask` (lines 267-271), fields
evaluated in source order. -/
def cleanPaa (item : JsValue) : Except String PaaItem :=
  match cleanField item "question" with
  | .error e => .error e
  | .ok q =>
    match cleanField item "answer" with
    | .error e => .error e
    | .ok a =>
      match cleanField item "content_gap_analysis" with
      | .error e => .error e
      | .ok g => .ok ⟨q, a, g⟩

/-- The per-element cleaning of `related_searches` (lines 273-275). -/
def cleanSearch (v : JsValue) : Except String String :=
  jsReplaceTrim (if jsFalsy v then .jstr "" else v)

/-- JS `Array.prototype.map` under exceptions: left to right, the first
throw aborts. -/
def mapE {α β : Type} (f : α → Except String β) : List α → Except String (List β)
| [] => .ok []
| a :: t =>
  match f a with
  | .error e => .error e
  | .ok b =>
    match mapE f t with
    | .error e => .error e
    | .ok bs => .ok (b :: bs)

/-- `Array.isArray(result.k)` guarded read. -/
def getArrField (v : JsValue) (k : String) : Option (List JsValue) :=
  match v with
  | .jobj fs =>
    (match lookupLast fs k with
    | some (.jarr l) => some l
    | _ => none)
  | _ => none

/-- The validation and cleaning of the extracted SERP value (lines
264-283): both fields must be arrays; the PAA items are cleaned first
(all of them, then `.slice(0, 5)`), then the related searches. -/
def processSerp (result : JsValue) : Except String GoogleSerpData :=
  if jsFalsy result then .error FORMAT_ERR_MSG
  else
    match getArrField result "related_searches", getArrField result "people_also_ask" with
    | some rs, some paas =>
      (match mapE cleanPaa paas with
      | .error e => .error e
      | .ok cleanedPaas =>
        match mapE cleanSearch rs with
        | .error e => .error e
        | .ok cleanedRS => .ok ⟨cleanedRS, cleanedPaas.take 5⟩)
    | _, _ => .error FORMAT_ERR_MSG

/-- `generateRelatedKeywords` from the AI response text onwards (lines
261-291): extraction, validation and cleaning; every failure is rethrown
with the wrapper prefix by the surrounding `catch`. The emptiness guard
on the input keyword and the model call itself are upstream of the
modelled portion. -/
def generateRelatedKeywords (responseText : String) : Except String GoogleSerpData :=
  match extractJsonFromText responseText with
  | .error m => .error (GEN_FAIL_PREFIX ++ m)
  | .ok result =>
    match processSerp result with
    | .ok d => .ok d
    | .error m => .error (GEN_FAIL_PREFIX ++ m)

/-- All string fields of a SERP result, in order. -/
def serpStrings (d : GoogleSerpData) : List String :=
  d.related_searches ++
    flatList (fun p => [p.question, p.answer, p.content_gap_analysis]) d.people_also_ask

/-- No string field of the result contains a citation marker. -/
def citationFreeSerp (d : GoogleSerpData) : Bool :=
  (serpStrings d).all (fun s => !(containsCitation s.data))

/-- Every string field of the result is trim-fixed (no leading or
trailing whitespace). -/
def noEdgeWsSerp (d : GoogleSerpData) : Bool :=
  (serpStrings d).all (fun s => decide (trimStr s = s))

/- ### fetchRelatedKeywords (lines 336-373) -/

/-- The source of a related-keyword query. -/
inductive SearchSource where
| google
| naver
deriving DecidableEq

/-- An entry of the returned keyword list. -/
structure KeywordData where
  id : Nat
  keyword : String
deriving DecidableEq

/-- Guard failure for an empty keyword (line 338). -/
def EMPTY_KEYWORD_MSG : String := "키워드가 비어있습니다."

/-- Failure when every Naver sub-fetch is rejected (line 357). -/
def naverFailMsg (keyword : String) : String :=
  "\x27" ++ keyword ++ "\x27에 대한 Naver 자동완성검색어 조회에 실패했습니다. 모든 요청이 거부되었습니다."

/-- The Korean consonant postfixes of the Naver fan-out (line 342). -/
def POSTFIXES : List String :=
  ["", "ㄱ", "ㄴ", "ㄷ", "ㄹ", "ㅁ", "ㅂ", "ㅅ", "ㅇ", "ㅈ", "ㅊ", "ㅋ", "ㅌ", "ㅍ", "ㅎ"]

/-- The search terms of the fan-out: `` `${keyword} ${p}`.trim() `` (line
343). -/
def searchTermsOf (keyword : String) : List String :=
  POSTFIXES.map (fun p => trimStr (keyword ++ " " ++ p))

/-- `Promise.allSettled` filtering: keep fulfilled values (lines
350-354). -/
def settlementOk : Except String (List String) → Option (List String)
| .ok v => some v
| .error _ => none

/-- After a `>`: the rest of the list (the first tag close), if any. -/
def splitAtGt : List Char → Option (List Char)
| [] => none
| c :: t => if c = '>' then some t else splitAtGt t

/-- Single pass of `.replace(/<[^>]*>/g, '')`, fuel-indexed: a `<` with a
later `>` removes everything through that first `>`; a `<` without one is
kept. -/
def stripTagsFuel : Nat → List Char → List Char
| 0, l => l
| _, [] => []
| fuel + 1, c :: t =>
  if c = '<' then
    match splitAtGt t with
    | some rest => stripTagsFuel fuel rest
    | none => c :: stripTagsFuel fuel t
  else c :: stripTagsFuel fuel t

/-- `.replace(/<[^>]*>/g, '')` on a character list. -/
def stripTags (l : List Char) : List Char :=
  stripTagsFuel (l.length + 1) l

/-- HTML-tag removal on strings (line 362). -/
def stripTagsStr (s : String) : String :=
  String.mk (stripTags s.data)

/-- Does `/<[^>]*>/` match anywhere (a `<` with a later `>`)? -/
def hasTag : List Char → Bool
| [] => false
| c :: t => (decide (c = '<') && t.contains '>') || hasTag t

/-- `Array.from(new Set(...))`: first occurrences in insertion order. -/
def dedupeAux : List String → List String → List String
| _, [] => []
| seen, x :: t =>
  if x ∈ seen then dedupeAux seen t else x :: dedupeAux (x :: seen) t

/-- Order-preserving deduplication (the `Set` of line 360). -/
def dedupe (l : List String) : List String :=
  dedupeAux [] l

/-- `finalSuggestions.map((kw, index) => ({id: index + 1, keyword: kw}))`
starting the index count at `i`. -/
def withIds : Nat → List String → List KeywordData
| _, [] => []
| i, kw :: t => ⟨i + 1, kw⟩ :: withIds (i + 1) t

/-- `fetchRelatedKeywords` (lines 336-373). The network is abstracted by
`subFetch`, the outcome of `fetchSingleTermKeywords` per search term: the
Naver path settles all fan-out terms and aggregates the fulfilled ones
(tag-stripped, deduplicated, first 20, re-indexed from 1); the Google
path propagates a single fetch for the keyword itself. -/
def fetchRelatedKeywords (keyword : String) (source : SearchSource)
    (subFetch : String → Except String (List String)) : Except String (List KeywordData) :=
  if trimStr keyword = "" then .error EMPTY_KEYWORD_MSG
  else
    match source with
    | .naver =>
      let settlements := (searchTermsOf keyword).map subFetch
      let successfulResults := settlements.filterMap settlementOk
      if successfulResults.isEmpty then .error (naverFailMsg keyword)
      else
        let allSuggestions :=
          dedupe (flatList (fun suggestions => suggestions.map (fun kw => stripTagsStr kw))
            successfulResults)
        .ok (withIds 0 (allSuggestions.take 20))
    | .google =>
      match subFetch keyword with
      | .error e => .error e
      | .ok suggestions => .ok (withIds 0 (suggestions.take 20))

/- ### Helper lemmas about the fetcher -/

theorem attemptNums_eq : attemptNums = [1, 2] := rfl

theorem lastOf_concat : ∀ (l : List Nat) (x : Nat), lastOf (l ++ [x]) = x := by
  intro l
  induction l with
  | nil => intro x; rfl
  | cons a t ih =>
    intro x
    cases t with
    | nil => rfl
    | cons b t2 => simpa [lastOf] using ih x

theorem lastOf_range (N : Nat) (hN : 1 ≤ N) : lastOf (List.range N) = N - 1 := by
  obtain ⟨M, rfl⟩ : ∃ M, N = M + 1 := ⟨N - 1, by omega⟩
  rw [List.range_succ, lastOf_concat]
  rfl

theorem range_ne_nil (N : Nat) (hN : 1 ≤ N) : List.range N ≠ [] := by
  intro h
  have := List.range_eq_nil.mp h
  omega

theorem runAttemptList_throwPair {α : Type} (outcome : Nat → Nat → AttemptOutcome)
    (interp : String → α) (p : Nat) (le : Option JsError) (e1 e2 : JsError)
    (h1 : outcome p 1 = .throwErr e1) (h2 : outcome p 2 = .throwErr e2) :
    runAttemptList outcome interp p attemptNums le =
      (.exhausted (some e2), [.fetchAttempt p 1, .sleep RETRY_DELAY_MS, .fetchAttempt p 2]) := by
  rw [attemptNums_eq]
  simp [runAttemptList, h1, h2, MAX_RETRIES_PER_PROXY]

theorem runProxyList_cons_exhausted {α : Type} (outcome : Nat → Nat → AttemptOutcome)
    (interp : String → α) (p : Nat) (rest : List Nat) (le le2 : Option JsError) (evs : List Ev)
    (h : runAttemptList outcome interp p attemptNums le = (.exhausted le2, evs)) :
    runProxyList outcome interp (p :: rest) le =
      ((runProxyList outcome interp rest le2).1,
        evs ++ (runProxyList outcome interp rest le2).2) := by
  simp [runProxyList, h]

theorem runProxyList_cons_success {α : Type} (outcome : Nat → Nat → AttemptOutcome)
    (interp : String → α) (p : Nat) (rest : List Nat) (le : Option JsError) (a : α) (evs : List Ev)
    (h : runAttemptList outcome interp p attemptNums le = (.success a, evs)) :
    runProxyList outcome interp (p :: rest) le = (.ok a, evs) := by
  simp [runProxyList, h]

theorem runProxyList_allThrow {α : Type} (e : Nat → Nat → JsError) (interp : String → α) :
    ∀ (ps : List Nat) (le : Option JsError), ps ≠ [] →
      runProxyList (fun p a => .throwErr (e p a)) interp ps le =
        (.error (finalMessage (some (e (lastOf ps) 2))), failTrace ps) := by
  intro ps
  induction ps with
  | nil => intro le h; exact absurd rfl h
  | cons p rest ih =>
    intro le _
    have hin := runAttemptList_throwPair (fun p a => AttemptOutcome.throwErr (e p a)) interp
      p le (e p 1) (e p 2) rfl rfl
    rw [runProxyList_cons_exhausted _ _ _ _ _ _ _ hin]
    cases rest with
    | nil =>
      simp [runProxyList, failTrace, flatList, lastOf]
    | cons q t =>
      have ihq := ih (some (e p 2)) (by simp)
      rw [ihq]
      simp [failTrace, flatList, lastOf]

theorem countP_failTrace : ∀ ps : List Nat, (failTrace ps).countP isFetchEv = 2 * ps.length := by
  intro ps
  induction ps with
  | nil => rfl
  | cons p t ih =>
    have : failTrace (p :: t) =
        [.fetchAttempt p 1, .sleep RETRY_DELAY_MS, .fetchAttempt p 2] ++ failTrace t := rfl
    rw [this, List.countP_append, ih]
    simp [List.countP_cons, isFetchEv]
    omega

/-- Claim C1: for every strategy list of length N ≥ 1, if every attempt of
every strategy fails with a transport-level exception (a thrown `Error`),
`fetchWithProxies` makes exactly N × 2 fetch attempts (two per strategy,
with the retry delay in between) and then throws the error obtained by
classifying the last recorded failure (the one of attempt 2 of the last
strategy); it never returns normally (the result is `Except.error`). -/
theorem C1_allAttemptsThrow {α : Type} (N : Nat) (hN : 1 ≤ N)
    (e : Nat → Nat → JsError) (interp : String → α) :
    fetchWithProxies N (fun p a => .throwErr (e p a)) interp =
      (.error (finalMessage (some (e (N - 1) 2))), failTrace (List.range N)) ∧
    (failTrace (List.range N)).countP isFetchEv = 2 * N := by
  constructor
  · rw [fetchWithProxies,
      runProxyList_allThrow e interp (List.range N) none (range_ne_nil N hN),
      lastOf_range N hN]
  · rw [countP_failTrace, List.length_range]

/-- Witness for C1 at N = 2 with a constant transport error. -/
theorem C1_allAttemptsThrow_witness :
    fetchWithProxies 2 (fun _ _ => .throwErr ⟨"boom", false⟩) (fun s => s) =
      (.error (finalMessage (some ⟨"boom", false⟩)), failTrace (List.range 2)) ∧
    (failTrace (List.range 2)).countP isFetchEv = 2 * 2 :=
  C1_allAttemptsThrow 2 (by decide) (fun _ _ => ⟨"boom", false⟩) (fun s => s)

theorem runProxyList_allOther {α : Type} (interp : String → α) :
    ∀ (ps : List Nat) (le : Option JsError), ps ≠ [] →
      runProxyList (fun _ _ => .throwOther) interp ps le =
        (.error (finalMessage (some unknownRequestError)), failTrace ps) := by
  intro ps
  induction ps with
  | nil => intro le h; exact absurd rfl h
  | cons p rest ih =>
    intro le _
    have hin : runAttemptList (fun _ _ => AttemptOutcome.throwOther) interp p attemptNums le =
        (.exhausted (some unknownRequestError),
          [.fetchAttempt p 1, .sleep RETRY_DELAY_MS, .fetchAttempt p 2]) := by
      rw [attemptNums_eq]
      simp [runAttemptList, MAX_RETRIES_PER_PROXY]
    rw [runProxyList_cons_exhausted _ _ _ _ _ _ _ hin]
    cases rest with
    | nil => simp [runProxyList, failTrace, flatList]
    | cons q t =>
      rw [ih (some unknownRequestError) (by simp)]
      simp [failTrace, flatList]

/-- Claim C4 is a code bug. When the per-attempt timeout fires,
`controller.abort('Timeout')` (line 132) makes the in-flight `fetch`
reject with the abort reason itself — the string `'Timeout'`, which is
not an `instanceof Error`. The catch at lines 166-170 therefore records
`new Error("알 수 없는 요청 오류가 발생했습니다.")` (the model's
`AttemptOutcome.throwOther` case), whose message does not contain
`Timeout`, so the classification branch of line 180 never matches: the
error finally thrown is the generic all-proxies-failed message, NOT the
timeout-classified one the claim (and the dead branch's evident intent)
describes. The connectivity classification for a fetch `TypeError`
does behave as claimed, and the message actually thrown on timeouts is
distinct from both classified messages. -/
theorem C4_timeoutAbortMisclassified {α : Type} (N : Nat) (interp : String → α) :
    (fetchWithProxies (N + 1) (fun _ _ => .throwOther) interp).1 =
      .error (allFailedMsg unknownRequestError) ∧
    (fetchWithProxies (N + 1) (fun _ _ => .throwErr ⟨"Failed to fetch", true⟩) interp).1 =
      .error CONNECTIVITY_ERROR_MSG ∧
    allFailedMsg unknownRequestError ≠ TIMEOUT_ERROR_MSG ∧
    allFailedMsg unknownRequestError ≠ CONNECTIVITY_ERROR_MSG := by
  have hne : List.range (N + 1) ≠ [] := range_ne_nil (N + 1) (by omega)
  refine ⟨?_, ?_, by decide, by decide⟩
  · rw [fetchWithProxies, runProxyList_allOther interp (List.range (N + 1)) none hne]
    have h1 : strIncludes "알 수 없는 요청 오류가 발생했습니다." "Timeout" = false := by decide
    simp [finalMessage, unknownRequestError, h1]
  · rw [fetchWithProxies,
      runProxyList_allThrow (fun _ _ => ⟨"Failed to fetch", true⟩) interp
        (List.range (N + 1)) none hne]
    have h2 : strIncludes "Failed to fetch" "Timeout" = false := by decide
    have h3 : strIncludes "Failed to fetch" "fetch" = true := by decide
    simp [finalMessage, h2, h3]

/-- Claim C5 counterexample: with a single strategy whose attempts both
deliver an ok response with an empty unwrapped body, the empty-payload
failure is retried (attempt 2 happens), but the retry is NOT preceded by
the 1-second delay: the `continue` on line 161 skips the delay of the
catch block, so the trace holds the two attempts back to back and the
formalisation of "every retry is preceded by a 1-second delay" is false. -/
theorem C5_cex :
    (fetchWithProxies 1 (fun _ _ => .response true 200 "") (fun s => s)).2 =
      [.fetchAttempt 0 1, .fetchAttempt 0 2] ∧
    retriesDelayedB (fetchWithProxies 1 (fun _ _ => .response true 200 "") (fun s => s)).2 =
      false :=
  ⟨rfl, rfl⟩

theorem runAttemptList_last_trace {α : Type} (outcome : Nat → Nat → AttemptOutcome)
    (interp : String → α) (p : Nat) (le : Option JsError) :
    (runAttemptList outcome interp p [2] le).2 = [.fetchAttempt p 2] := by
  cases ho : outcome p 2 with
  | response okf status content =>
    cases okf with
    | false => simp [runAttemptList, ho]
    | true => by_cases hc : content = "" <;> simp [runAttemptList, ho, hc]
  | throwErr e => simp [runAttemptList, ho, MAX_RETRIES_PER_PROXY]
  | throwOther => simp [runAttemptList, ho, MAX_RETRIES_PER_PROXY]

/-- Claim C5, amended: a retry that follows a caught exception is
preceded by the 1-second delay, and an empty payload after unwrapping
causes the same strategy to be retried up to the 2-attempt limit before
moving on — but that empty-payload retry happens immediately, with no
delay (the `continue` bypasses the delay of the catch block). -/
theorem C5_emptyRetryUndelayed {α : Type} (outcome : Nat → Nat → AttemptOutcome)
    (interp : String → α) (p : Nat) (le : Option JsError) :
    (isThrowOutcome (outcome p 1) = true →
      (runAttemptList outcome interp p attemptNums le).2 =
        [.fetchAttempt p 1, .sleep RETRY_DELAY_MS, .fetchAttempt p 2]) ∧
    (isEmptyOkOutcome (outcome p 1) = true → isEmptyOkOutcome (outcome p 2) = true →
      runAttemptList outcome interp p attemptNums le =
        (.exhausted (some emptyContentError), [.fetchAttempt p 1, .fetchAttempt p 2])) := by
  constructor
  · intro h1
    cases ho1 : outcome p 1 with
    | throwErr e =>
      rw [attemptNums_eq]
      simp only [runAttemptList, ho1, MAX_RETRIES_PER_PROXY]
      norm_num
      cases ho2 : outcome p 2 with
      | response okf status content =>
        cases okf with
        | false => simp
        | true => by_cases hc : content = "" <;> simp [hc]
      | throwErr e2 => simp
      | throwOther => simp
    | throwOther =>
      rw [attemptNums_eq]
      simp only [runAttemptList, ho1, MAX_RETRIES_PER_PROXY]
      norm_num
      cases ho2 : outcome p 2 with
      | response okf status content =>
        cases okf with
        | false => simp
        | true => by_cases hc : content = "" <;> simp [hc]
      | throwErr e2 => simp
      | throwOther => simp
    | response okf status content =>
      rw [ho1] at h1
      simp [isThrowOutcome] at h1
  · intro h1 h2
    cases ho1 : outcome p 1 with
    | response okf s c =>
      rw [ho1] at h1
      cases okf with
      | false => simp [isEmptyOkOutcome] at h1
      | true =>
        have hc : c = "" := by simpa [isEmptyOkOutcome] using h1
        subst hc
        cases ho2 : outcome p 2 with
        | response okf2 s2 c2 =>
          rw [ho2] at h2
          cases okf2 with
          | false => simp [isEmptyOkOutcome] at h2
          | true =>
            have hc2 : c2 = "" := by simpa [isEmptyOkOutcome] using h2
            subst hc2
            rw [attemptNums_eq]
            simp [runAttemptList, ho1, ho2]
        | throwErr e => rw [ho2] at h2; simp [isEmptyOkOutcome] at h2
        | throwOther => rw [ho2] at h2; simp [isEmptyOkOutcome] at h2
    | throwErr e => rw [ho1] at h1; simp [isEmptyOkOutcome] at h1
    | throwOther => rw [ho1] at h1; simp [isEmptyOkOutcome] at h1

/-- Witness for the amended C5: a throwing strategy sleeps between its
attempts; an empty-payload strategy retries back to back. -/
theorem C5_emptyRetryUndelayed_witness :
    (runAttemptList (fun _ _ => .throwErr ⟨"x", false⟩) (fun s => s) 0 attemptNums none).2 =
      [.fetchAttempt 0 1, .sleep RETRY_DELAY_MS, .fetchAttempt 0 2] ∧
    runAttemptList (fun _ _ => .response true 200 "") (fun s => s) 0 attemptNums none =
      (.exhausted (some emptyContentError), [.fetchAttempt 0 1, .fetchAttempt 0 2]) :=
  ⟨(C5_emptyRetryUndelayed (fun _ _ => .throwErr ⟨"x", false⟩) (fun s => s) 0 none).1 rfl,
   (C5_emptyRetryUndelayed (fun _ _ => .response true 200 "") (fun s => s) 0 none).2 rfl rfl⟩

/-- Claim C6: an HTTP response with `response.ok` false on an attempt
makes `fetchWithProxies` record the HTTP-status error and advance
directly to the next strategy: the inner loop `break`s after the single
attempt, and the outer loop continues with the rest of the strategies,
threading the recorded error. -/
theorem C6_httpErrorSkipsStrategy {α : Type} (outcome : Nat → Nat → AttemptOutcome)
    (interp : String → α) (p : Nat) (le : Option JsError) (status : Nat) (content : String)
    (h : outcome p 1 = .response false status content) :
    runAttemptList outcome interp p attemptNums le =
      (.exhausted (some (httpError status)), [.fetchAttempt p 1]) ∧
    ∀ rest, runProxyList outcome interp (p :: rest) le =
      ((runProxyList outcome interp rest (some (httpError status))).1,
        .fetchAttempt p 1 :: (runProxyList outcome interp rest (some (httpError status))).2) := by
  have hinner : runAttemptList outcome interp p attemptNums le =
      (.exhausted (some (httpError status)), [.fetchAttempt p 1]) := by
    rw [attemptNums_eq]
    simp [runAttemptList, h]
  refine ⟨hinner, fun rest => ?_⟩
  rw [runProxyList_cons_exhausted outcome interp p rest le _ _ hinner]
  rfl

/-- Witness for C6: a 404 on the first strategy of two. -/
theorem C6_httpErrorSkipsStrategy_witness :
    runAttemptList (fun _ _ => .response false 404 "nope") (fun s => s) 0 attemptNums none =
      (.exhausted (some (httpError 404)), [.fetchAttempt 0 1]) ∧
    runProxyList (fun _ _ => .response false 404 "nope") (fun s => s) [0, 1] none =
      ((runProxyList (fun _ _ => .response false 404 "nope") (fun s => s) [1]
          (some (httpError 404))).1,
        .fetchAttempt 0 1 ::
          (runProxyList (fun _ _ => .response false 404 "nope") (fun s => s) [1]
            (some (httpError 404))).2) :=
  ⟨(C6_httpErrorSkipsStrategy (fun _ _ => .response false 404 "nope") (fun s => s)
      0 none 404 "nope" rfl).1,
   (C6_httpErrorSkipsStrategy (fun _ _ => .response false 404 "nope") (fun s => s)
      0 none 404 "nope" rfl).2 [1]⟩

theorem runAttemptList_noSuccess {α : Type} (outcome : Nat → Nat → AttemptOutcome)
    (interp : String → α) (p : Nat) (le : Option JsError)
    (h1 : isSuccessOutcome (outcome p 1) = false)
    (h2 : isSuccessOutcome (outcome p 2) = false) :
    ∃ le2 evs, runAttemptList outcome interp p attemptNums le = (.exhausted le2, evs) ∧
      evs.all (evOfStrategy p) = true := by
  rw [attemptNums_eq]
  cases ho1 : outcome p 1 with
  | response okf s c =>
    cases okf with
    | false =>
      exact ⟨some (httpError s), [.fetchAttempt p 1],
        by simp [runAttemptList, ho1], by simp [evOfStrategy]⟩
    | true =>
      have hc : c = "" := by
        rw [ho1] at h1
        simpa [isSuccessOutcome] using h1
      subst hc
      cases ho2 : outcome p 2 with
      | response okf2 s2 c2 =>
        cases okf2 with
        | false =>
          exact ⟨some (httpError s2), [.fetchAttempt p 1, .fetchAttempt p 2],
            by simp [runAttemptList, ho1, ho2], by simp [evOfStrategy]⟩
        | true =>
          have hc2 : c2 = "" := by
            rw [ho2] at h2
            simpa [isSuccessOutcome] using h2
          subst hc2
          exact ⟨some emptyContentError, [.fetchAttempt p 1, .fetchAttempt p 2],
            by simp [runAttemptList, ho1, ho2], by simp [evOfStrategy]⟩
      | throwErr e2 =>
        exact ⟨some e2, [.fetchAttempt p 1, .fetchAttempt p 2],
          by simp [runAttemptList, ho1, ho2, MAX_RETRIES_PER_PROXY], by simp [evOfStrategy]⟩
      | throwOther =>
        exact ⟨some unknownRequestError, [.fetchAttempt p 1, .fetchAttempt p 2],
          by simp [runAttemptList, ho1, ho2, MAX_RETRIES_PER_PROXY], by simp [evOfStrategy]⟩
  | throwErr e1 =>
    cases ho2 : outcome p 2 with
    | response okf2 s2 c2 =>
      cases okf2 with
      | false =>
        exact ⟨some (httpError s2),
          [.fetchAttempt p 1, .sleep RETRY_DELAY_MS, .fetchAttempt p 2],
          by simp [runAttemptList, ho1, ho2, MAX_RETRIES_PER_PROXY], by simp [evOfStrategy]⟩
      | true =>
        have hc2 : c2 = "" := by
          rw [ho2] at h2
          simpa [isSuccessOutcome] using h2
        subst hc2
        exact ⟨some emptyContentError,
          [.fetchAttempt p 1, .sleep RETRY_DELAY_MS, .fetchAttempt p 2],
          by simp [runAttemptList, ho1, ho2, MAX_RETRIES_PER_PROXY], by simp [evOfStrategy]⟩
    | throwErr e2 =>
      exact ⟨some e2, [.fetchAttempt p 1, .sleep RETRY_DELAY_MS, .fetchAttempt p 2],
        by simp [runAttemptList, ho1, ho2, MAX_RETRIES_PER_PROXY], by simp [evOfStrategy]⟩
    | throwOther =>
      exact ⟨some unknownRequestError,
        [.fetchAttempt p 1, .sleep RETRY_DELAY_MS, .fetchAttempt p 2],
        by simp [runAttemptList, ho1, ho2, MAX_RETRIES_PER_PROXY], by simp [evOfStrategy]⟩
  | throwOther =>
    cases ho2 : outcome p 2 with
    | response okf2 s2 c2 =>
      cases okf2 with
      | false =>
        exact ⟨some (httpError s2),
          [.fetchAttempt p 1, .sleep RETRY_DELAY_MS, .fetchAttempt p 2],
          by simp [runAttemptList, ho1, ho2, MAX_RETRIES_PER_PROXY], by simp [evOfStrategy]⟩
      | true =>
        have hc2 : c2 = "" := by
          rw [ho2] at h2
          simpa [isSuccessOutcome] using h2
        subst hc2
        exact ⟨some emptyContentError,
          [.fetchAttempt p 1, .sleep RETRY_DELAY_MS, .fetchAttempt p 2],
          by simp [runAttemptList, ho1, ho2, MAX_RETRIES_PER_PROXY], by simp [evOfStrategy]⟩
    | throwErr e2 =>
      exact ⟨some e2, [.fetchAttempt p 1, .sleep RETRY_DELAY_MS, .fetchAttempt p 2],
        by simp [runAttemptList, ho1, ho2, MAX_RETRIES_PER_PROXY], by simp [evOfStrategy]⟩
    | throwOther =>
      exact ⟨some unknownRequestError,
        [.fetchAttempt p 1, .sleep RETRY_DELAY_MS, .fetchAttempt p 2],
        by simp [runAttemptList, ho1, ho2, MAX_RETRIES_PER_PROXY], by simp [evOfStrategy]⟩

theorem evOf_mono1 (p : Nat) (ps : List Nat) (evs : List Ev)
    (h : evs.all (evOfStrategy p) = true) : evs.all (evOfStrategies (p :: ps)) = true := by
  rw [List.all_eq_true] at *
  intro ev hev
  have hx := h ev hev
  cases ev with
  | fetchAttempt q a =>
    simp [evOfStrategy] at hx
    simp [evOfStrategies, hx]
  | sleep ms => simp [evOfStrategies]

theorem evOf_mono2 (q : Nat) (ps : List Nat) (evs : List Ev)
    (h : evs.all (evOfStrategies ps) = true) : evs.all (evOfStrategies (q :: ps)) = true := by
  rw [List.all_eq_true] at *
  intro ev hev
  have hx := h ev hev
  cases ev with
  | fetchAttempt r a =>
    simp [evOfStrategies] at hx
    simp [evOfStrategies, hx]
  | sleep ms => simp [evOfStrategies]

theorem runProxyList_noSuccess {α : Type} (outcome : Nat → Nat → AttemptOutcome)
    (interp : String → α) :
    ∀ (ps : List Nat) (le : Option JsError),
      (∀ p ∈ ps, isSuccessOutcome (outcome p 1) = false ∧
        isSuccessOutcome (outcome p 2) = false) →
      ∃ le2 evs,
        (∀ qs, runProxyList outcome interp (ps ++ qs) le =
          ((runProxyList outcome interp qs le2).1,
            evs ++ (runProxyList outcome interp qs le2).2)) ∧
        evs.all (evOfStrategies ps) = true := by
  intro ps
  induction ps with
  | nil =>
    intro le _
    exact ⟨le, [], fun qs => by simp, rfl⟩
  | cons p rest ih =>
    intro le hfail
    obtain ⟨h1, h2⟩ := hfail p (by simp)
    obtain ⟨le1, evs1, heq1, hall1⟩ := runAttemptList_noSuccess outcome interp p le h1 h2
    obtain ⟨le2, evs2, heq2, hall2⟩ := ih le1 (fun q hq => hfail q (by simp [hq]))
    refine ⟨le2, evs1 ++ evs2, fun qs => ?_, ?_⟩
    · have hstep := runProxyList_cons_exhausted outcome interp p (rest ++ qs) le le1 evs1 heq1
      calc runProxyList outcome interp ((p :: rest) ++ qs) le
          = ((runProxyList outcome interp (rest ++ qs) le1).1,
              evs1 ++ (runProxyList outcome interp (rest ++ qs) le1).2) := hstep
        _ = ((runProxyList outcome interp qs le2).1,
              (evs1 ++ evs2) ++ (runProxyList outcome interp qs le2).2) := by
            rw [heq2 qs]
            simp [List.append_assoc]
    · rw [List.all_append]
      rw [evOf_mono1 p rest evs1 hall1, evOf_mono2 p rest evs2 hall2]
      rfl

theorem range_decomp (N k : Nat) (hk : k < N) :
    List.range N = List.range k ++ (k :: (List.range N).drop (k + 1)) := by
  have h1 : (List.range N).take k = List.range k := by
    rw [List.take_range]
    simp [Nat.min_eq_left (Nat.le_of_lt hk)]
  have h2 : (List.range N).drop k = k :: (List.range N).drop (k + 1) := by
    have hlen : k < (List.range N).length := by simpa using hk
    rw [List.drop_eq_getElem_cons hlen]
    simp
  conv_lhs => rw [← List.take_append_drop k (List.range N)]
  rw [h1, h2]

theorem attemptsWithin_of_strategies (k : Nat) (evs : List Ev)
    (h : evs.all (evOfStrategies (List.range k)) = true) :
    evs.all (attemptsWithin k) = true := by
  rw [List.all_eq_true] at *
  intro ev hev
  have hx := h ev hev
  cases ev with
  | fetchAttempt q a =>
    simp [evOfStrategies, List.mem_range] at hx
    simp [attemptsWithin, hx]
  | sleep ms => simp [attemptsWithin]

/-- Claim C2: if strategies 0..k-1 fail on all their attempts and
strategy k delivers a successful non-empty payload on its first attempt,
`fetchWithProxies` returns the interpreter applied to that payload
immediately: the trace holds no second attempt of strategy k and no
attempt of any strategy after k, and strategy k is attempted once. -/
theorem C2_firstSuccessShortCircuits {α : Type} (N k : Nat) (hk : k < N)
    (outcome : Nat → Nat → AttemptOutcome) (interp : String → α)
    (hfail : ∀ p, p < k → isSuccessOutcome (outcome p 1) = false ∧
      isSuccessOutcome (outcome p 2) = false)
    (status : Nat) (content : String) (hc : content ≠ "")
    (hsucc : outcome k 1 = .response true status content) :
    (fetchWithProxies N outcome interp).1 = .ok (interp content) ∧
    ((fetchWithProxies N outcome interp).2).all (attemptsWithin k) = true ∧
    Ev.fetchAttempt k 1 ∈ (fetchWithProxies N outcome interp).2 := by
  obtain ⟨le2, evs, heq, hall⟩ := runProxyList_noSuccess outcome interp (List.range k) none
    (fun p hp => hfail p (List.mem_range.mp hp))
  have hinner : runAttemptList outcome interp k attemptNums le2 =
      (.success (interp content), [.fetchAttempt k 1]) := by
    rw [attemptNums_eq]
    simp [runAttemptList, hsucc, hc]
  have hrun : fetchWithProxies N outcome interp =
      (.ok (interp content), evs ++ [.fetchAttempt k 1]) := by
    rw [fetchWithProxies, range_decomp N k hk, heq]
    rw [runProxyList_cons_success outcome interp k _ le2 (interp content)
      [.fetchAttempt k 1] hinner]
  rw [hrun]
  refine ⟨rfl, ?_, by simp⟩
  rw [List.all_append, attemptsWithin_of_strategies k evs hall]
  simp [attemptsWithin]

/-- Witness for C2 with two strategies: strategy 0 throws on both
attempts, strategy 1 succeeds first try. -/
theorem C2_firstSuccessShortCircuits_witness :
    (fetchWithProxies 2
      (fun p _ => if p = 0 then .throwErr ⟨"x", false⟩ else .response true 200 "data")
      (fun s => s)).1 = .ok "data" ∧
    ((fetchWithProxies 2
      (fun p _ => if p = 0 then .throwErr ⟨"x", false⟩ else .response true 200 "data")
      (fun s => s)).2).all (attemptsWithin 1) = true ∧
    Ev.fetchAttempt 1 1 ∈ (fetchWithProxies 2
      (fun p _ => if p = 0 then .throwErr ⟨"x", false⟩ else .response true 200 "data")
      (fun s => s)).2 :=
  C2_firstSuccessShortCircuits 2 1 (by decide)
    (fun p _ => if p = 0 then .throwErr ⟨"x", false⟩ else .response true 200 "data")
    (fun s => s)
    (fun p hp => by
      have hp0 : p = 0 := by omega
      subst hp0
      exact ⟨rfl, rfl⟩)
    200 "data" (by decide) rfl

/-- Claim C3: on the exact markdown-wrapped input, the extractor returns
the parsed value `{a: [1,2,{b:"}"}]}`; the `}` inside the quoted string
value does not terminate the depth scan early. -/
theorem C3_braceInsideString :
    extractJsonFromText
        "here is the result:\n```json\n\x7b\"a\": [1,2,\x7b\"b\":\"\x7d\"\x7d]\x7d\n```\nthanks" =
      .ok (.jobj [("a", .jarr [.jnum 1, .jnum 2, .jobj [("b", .jstr "\x7d")]])]) := rfl

/- ### Helper bounds for the extractor fallback (claim C8) -/

theorem lastIndexOfCAux_lt (c : Char) :
    ∀ (l : List Char) (i : Nat) (best : Int), best < (i : Int) + l.length →
      lastIndexOfCAux c l i best < (i : Int) + l.length := by
  intro l
  induction l with
  | nil =>
    intro i best h
    simpa [lastIndexOfCAux] using h
  | cons x t ih =>
    intro i best h
    simp only [lastIndexOfCAux, List.length_cons] at *
    have hb : (if x = c then (i : Int) else best) < ((i + 1 : Nat) : Int) + t.length := by
      split <;> push_cast at h ⊢ <;> omega
    have hx := ih (i + 1) _ hb
    push_cast at hx ⊢
    omega

theorem lastIndexOfC_lt (l : List Char) (c : Char) : lastIndexOfC l c < (l.length : Int) := by
  have hx := lastIndexOfCAux_lt c l 0 (-1) (by push_cast; omega)
  simpa [lastIndexOfC] using hx

theorem fallbackEnd_lt (l : List Char) : fallbackEnd l < (l.length : Int) := by
  rw [fallbackEnd]
  exact max_lt (lastIndexOfC_lt l _) (lastIndexOfC_lt l _)

theorem searchStartAux_lt : ∀ (l : List Char) (i s : Nat) (c : Char),
    searchStartAux l i = some (s, c) → s < i + l.length := by
  intro l
  induction l with
  | nil => intro i s c h; simp [searchStartAux] at h
  | cons x t ih =>
    intro i s c h
    simp only [searchStartAux] at h
    split at h
    · simp only [Option.some.injEq, Prod.mk.injEq] at h
      simp only [List.length_cons]
      omega
    · have hx := ih (i + 1) s c h
      simp only [List.length_cons]
      omega

theorem searchStart_lt (l : List Char) (s : Nat) (c : Char)
    (h : searchStart l = some (s, c)) : s < l.length := by
  have hx := searchStartAux_lt l 0 s c h
  omega

theorem jsSubstring_of_le (l : List Char) (s : Nat) (e : Int)
    (hse : (s : Int) ≤ e) (hen : e < (l.length : Int)) :
    jsSubstring l (s : Int) (e + 1) = sliceIncl l s e := by
  have hs_le : s ≤ l.length := by omega
  have hsen : s ≤ e.toNat := by omega
  have hen1 : e.toNat + 1 ≤ l.length := by omega
  simp only [jsSubstring, sliceIncl]
  have h1 : ((s : Int)).toNat = s := by omega
  have h2 : (e + 1).toNat = e.toNat + 1 := by omega
  rw [h1, h2, Nat.min_eq_left hs_le, Nat.min_eq_left hen1,
    Nat.min_eq_left (by omega), Nat.max_eq_right (by omega)]

/-- Claim C8, amended: when the depth scan never returns to zero, the end
index is set to the later of the last `}` and the last `]` of the search
text (`fallbackEnd`, by construction of `extractCandidate`); whenever
that fallback index is at or after the start index, the slice from the
start index through the end index inclusive is what gets handed to the
JSON parser. (When the fallback index is smaller — -1 raises before
parsing, and an index below the start makes `substring` swap its
arguments — a different slice or an error results, as the counterexample
shows.) -/
theorem C8_fallbackSlice (text : String) (s : Nat) (c0 : Char)
    (hs : searchStart (searchTextOf text) = some (s, c0))
    (hscan : scanLoop c0 (if c0 = '[' then ']' else '\x7d')
      ((searchTextOf text).drop s) s false false 0 = none)
    (hge : (s : Int) ≤ fallbackEnd (searchTextOf text)) :
    extractCandidate text =
      .ok (sliceIncl (searchTextOf text) s (fallbackEnd (searchTextOf text))) := by
  have hlt := fallbackEnd_lt (searchTextOf text)
  have hne : ¬(fallbackEnd (searchTextOf text) = -1) := by omega
  simp only [extractCandidate, hs, hscan]
  rw [if_neg hne, jsSubstring_of_le _ _ _ hge hlt]

/-- Witness for the amended C8: `{"}"` — the brace inside the string
keeps the scan open, and the fallback end index (the `}` inside the
string, index 2) is after the start index 0. -/
theorem C8_fallbackSlice_witness :
    extractCandidate "\x7b\"\x7d\"" =
      .ok (sliceIncl (searchTextOf "\x7b\"\x7d\"") 0
        (fallbackEnd (searchTextOf "\x7b\"\x7d\""))) :=
  C8_fallbackSlice "\x7b\"\x7d\"" 0 '\x7b' rfl rfl (by decide)

/-- Claim C8 counterexample: on `]]] {` the scan never closes and the
fallback end index (2, the last `]`) lies before the start index (4, the
`{`), so the slice from start through end inclusive is empty — yet the
code passes the single character `' '` to the parser, because
`substring(4, 3)` swaps its arguments. The claim as stated (the
inclusive start-to-end slice is what gets parsed) is therefore false. -/
theorem C8_cex :
    searchStart (searchTextOf "]]] \x7b") = some (4, '\x7b') ∧
    scanLoop '\x7b' '\x7d' ((searchTextOf "]]] \x7b").drop 4) 4 false false 0 = none ∧
    fallbackEnd (searchTextOf "]]] \x7b") = 2 ∧
    extractCandidate "]]] \x7b" = .ok [' '] ∧
    sliceIncl (searchTextOf "]]] \x7b") 4 2 = [] ∧
    ([' '] : List Char) ≠ [] :=
  ⟨rfl, rfl, rfl, rfl, rfl, by decide⟩

/- ### Helper lemmas for fetchRelatedKeywords (claims C7, C9) -/

theorem withIds_length : ∀ (l : List String) (n : Nat), (withIds n l).length = l.length := by
  intro l
  induction l with
  | nil => intro n; rfl
  | cons x t ih => intro n; simp [withIds, ih (n + 1)]

theorem withIds_map_id : ∀ (l : List String) (n : Nat),
    (withIds n l).map (fun kd => kd.id) = List.range' (n + 1) l.length := by
  intro l
  induction l with
  | nil => intro n; rfl
  | cons x t ih =>
    intro n
    simp [withIds, ih (n + 1), List.range'_succ]

theorem withIds_map_keyword : ∀ (l : List String) (n : Nat),
    (withIds n l).map (fun kd => kd.keyword) = l := by
  intro l
  induction l with
  | nil => intro n; rfl
  | cons x t ih => intro n; simp [withIds, ih (n + 1)]

theorem keyword_mem_of_mem_withIds (l : List String) (n : Nat) (kd : KeywordData)
    (h : kd ∈ withIds n l) : kd.keyword ∈ l := by
  have hx : kd.keyword ∈ (withIds n l).map (fun k => k.keyword) :=
    List.mem_map_of_mem _ h
  rwa [withIds_map_keyword] at hx

theorem dedupeAux_props : ∀ (l seen : List String),
    (dedupeAux seen l).Nodup ∧ ∀ x ∈ dedupeAux seen l, x ∉ seen := by
  intro l
  induction l with
  | nil => intro seen; exact ⟨List.nodup_nil, by simp [dedupeAux]⟩
  | cons x t ih =>
    intro seen
    by_cases hx : x ∈ seen
    · simpa [dedupeAux, hx] using ih seen
    · obtain ⟨hnd, hmem⟩ := ih (x :: seen)
      refine ⟨?_, ?_⟩
      · simp only [dedupeAux, if_neg hx]
        refine List.nodup_cons.mpr ⟨?_, hnd⟩
        intro hxin
        exact (hmem x hxin) (by simp)
      · intro y hy
        simp only [dedupeAux, if_neg hx] at hy
        rcases List.mem_cons.mp hy with rfl | hy2
        · exact hx
        · intro hys
          exact (hmem y hy2) (by simp [hys])

theorem dedupe_nodup (l : List String) : (dedupe l).Nodup :=
  (dedupeAux_props l []).1

theorem dedupeAux_subset : ∀ (l seen : List String) (x : String),
    x ∈ dedupeAux seen l → x ∈ l := by
  intro l
  induction l with
  | nil => intro seen x h; simp [dedupeAux] at h
  | cons a t ih =>
    intro seen x h
    by_cases ha : a ∈ seen
    · simp only [dedupeAux, if_pos ha] at h
      exact List.mem_cons_of_mem a (ih seen x h)
    · simp only [dedupeAux, if_neg ha] at h
      rcases List.mem_cons.mp h with rfl | h2
      · simp
      · exact List.mem_cons_of_mem a (ih (a :: seen) x h2)

theorem mem_flatList {α β : Type} (f : α → List β) :
    ∀ (l : List α) (x : β), x ∈ flatList f l ↔ ∃ a ∈ l, x ∈ f a := by
  intro l
  induction l with
  | nil => intro x; simp [flatList]
  | cons a t ih => intro x; simp [flatList, List.mem_append, ih]

theorem splitAtGt_none : ∀ (l : List Char), splitAtGt l = none → '>' ∉ l := by
  intro l
  induction l with
  | nil => intro _; simp
  | cons c t ih =>
    intro h
    rw [splitAtGt] at h
    by_cases hc : c = '>'
    · simp [hc] at h
    · rw [if_neg hc] at h
      intro hmem
      rcases List.mem_cons.mp hmem with h1 | h1
      · exact hc h1.symm
      · exact (ih h) h1

theorem splitAtGt_subset : ∀ (l r : List Char), splitAtGt l = some r → ∀ x ∈ r, x ∈ l := by
  intro l
  induction l with
  | nil => intro r h; simp [splitAtGt] at h
  | cons c t ih =>
    intro r h x hx
    rw [splitAtGt] at h
    by_cases hc : c = '>'
    · rw [if_pos hc] at h
      cases h
      exact List.mem_cons_of_mem c hx
    · rw [if_neg hc] at h
      exact List.mem_cons_of_mem c (ih r h x hx)

theorem splitAtGt_some_length : ∀ (l r : List Char), splitAtGt l = some r →
    r.length < l.length := by
  intro l
  induction l with
  | nil => intro r h; simp [splitAtGt] at h
  | cons c t ih =>
    intro r h
    rw [splitAtGt] at h
    by_cases hc : c = '>'
    · rw [if_pos hc] at h
      cases h
      simp
    · rw [if_neg hc] at h
      have := ih r h
      simp only [List.length_cons]
      omega

theorem stripTagsFuel_subset : ∀ (fuel : Nat) (l : List Char) (x : Char),
    x ∈ stripTagsFuel fuel l → x ∈ l := by
  intro fuel
  induction fuel with
  | zero => intro l x h; simpa [stripTagsFuel] using h
  | succ fuel ih =>
    intro l x h
    cases l with
    | nil => simp [stripTagsFuel] at h
    | cons c t =>
      rw [stripTagsFuel] at h
      by_cases hc : c = '<'
      · rw [if_pos hc] at h
        cases hsp : splitAtGt t with
        | some rest =>
          rw [hsp] at h
          exact List.mem_cons_of_mem c (splitAtGt_subset t rest hsp x (ih rest x h))
        | none =>
          rw [hsp] at h
          rcases List.mem_cons.mp h with rfl | h2
          · simp
          · exact List.mem_cons_of_mem c (ih t x h2)
      · rw [if_neg hc] at h
        rcases List.mem_cons.mp h with rfl | h2
        · simp
        · exact List.mem_cons_of_mem c (ih t x h2)

theorem contains_eq_false_of_not_mem {l : List Char} {c : Char} (h : c ∉ l) :
    l.contains c = false := by
  rw [Bool.eq_false_iff]
  intro hc
  exact h (by simpa using hc)

theorem hasTag_no_gt : ∀ (l : List Char), '>' ∉ l → hasTag l = false := by
  intro l
  induction l with
  | nil => intro _; rfl
  | cons c t ih =>
    intro h
    have h1 : '>' ∉ t := fun hm => h (List.mem_cons_of_mem c hm)
    rw [hasTag, ih h1, contains_eq_false_of_not_mem h1]
    simp

theorem hasTag_stripTagsFuel : ∀ (fuel : Nat) (l : List Char), l.length < fuel →
    hasTag (stripTagsFuel fuel l) = false := by
  intro fuel
  induction fuel with
  | zero => intro l h; omega
  | succ fuel ih =>
    intro l h
    cases l with
    | nil => rfl
    | cons c t =>
      rw [stripTagsFuel]
      by_cases hc : c = '<'
      · rw [if_pos hc]
        cases hsp : splitAtGt t with
        | some rest =>
          have hlen : rest.length < fuel := by
            have := splitAtGt_some_length t rest hsp
            simp only [List.length_cons] at h
            omega
          exact ih rest hlen
        | none =>
          have hng : '>' ∉ t := splitAtGt_none t hsp
          have hng2 : '>' ∉ stripTagsFuel fuel t :=
            fun hm => hng (stripTagsFuel_subset fuel t '>' hm)
          rw [hasTag, hasTag_no_gt _ hng2, contains_eq_false_of_not_mem hng2]
          simp
      · rw [if_neg hc]
        have ht : t.length < fuel := by
          simp only [List.length_cons] at h
          omega
        rw [hasTag, ih t ht]
        simp [hc]

theorem hasTag_stripTags (l : List Char) : hasTag (stripTags l) = false :=
  hasTag_stripTagsFuel (l.length + 1) l (by omega)

theorem settlementOk_eq_some (r : Except String (List String)) (v : List String)
    (h : settlementOk r = some v) : r = .ok v := by
  cases r with
  | ok w =>
    simp only [settlementOk, Option.some.injEq] at h
    rw [h]
  | error e => simp [settlementOk] at h

/-- Claim C9: whenever `fetchRelatedKeywords` returns normally (either
source), the list has at most 20 entries and the ids are exactly
1, 2, ..., length in order; on the Naver path the keyword strings are
additionally duplicate-free and contain no HTML tag. -/
theorem C9_resultInvariants (keyword : String) (source : SearchSource)
    (subFetch : String → Except String (List String)) (res : List KeywordData)
    (h : fetchRelatedKeywords keyword source subFetch = .ok res) :
    res.length ≤ 20 ∧
    res.map (fun kd => kd.id) = List.range' 1 res.length ∧
    (source = .naver → (res.map (fun kd => kd.keyword)).Nodup ∧
      ∀ kd ∈ res, hasTag kd.keyword.data = false) := by
  cases source with
  | google =>
    simp only [fetchRelatedKeywords] at h
    split at h
    · simp at h
    · cases hsf : subFetch keyword with
      | error e => rw [hsf] at h; simp at h
      | ok suggestions =>
        rw [hsf] at h
        simp only [Except.ok.injEq] at h
        subst h
        refine ⟨?_, ?_, ?_⟩
        · rw [withIds_length]
          exact List.length_take_le 20 _
        · rw [withIds_map_id, withIds_length]
        · intro hns
          simp at hns
  | naver =>
    simp only [fetchRelatedKeywords] at h
    split at h
    · simp at h
    · split at h
      · simp at h
      · simp only [Except.ok.injEq] at h
        subst h
        refine ⟨?_, ?_, fun _ => ⟨?_, ?_⟩⟩
        · rw [withIds_length]
          exact List.length_take_le 20 _
        · rw [withIds_map_id, withIds_length]
        · rw [withIds_map_keyword]
          exact (dedupe_nodup _).sublist (List.take_sublist 20 _)
        · intro kd hkd
          have h1 : kd.keyword ∈ (dedupe _).take 20 := keyword_mem_of_mem_withIds _ 0 kd hkd
          have h2 := dedupeAux_subset _ [] kd.keyword (List.take_subset 20 _ h1)
          rw [mem_flatList] at h2
          obtain ⟨sug, _, hmem⟩ := h2
          rw [List.mem_map] at hmem
          obtain ⟨kw, _, hkw⟩ := hmem
          rw [← hkw]
          exact hasTag_stripTags kw.data

/-- Witness for C9: the Google path on a single suggestion. -/
theorem C9_resultInvariants_witness :
    ([⟨1, "a"⟩] : List KeywordData).length ≤ 20 ∧
    ([⟨1, "a"⟩] : List KeywordData).map (fun kd => kd.id) =
      List.range' 1 ([⟨1, "a"⟩] : List KeywordData).length ∧
    (SearchSource.google = SearchSource.naver →
      (([⟨1, "a"⟩] : List KeywordData).map (fun kd => kd.keyword)).Nodup ∧
      ∀ kd ∈ ([⟨1, "a"⟩] : List KeywordData), hasTag kd.keyword.data = false) :=
  C9_resultInvariants "k" .google (fun _ => .ok ["a"]) [⟨1, "a"⟩] rfl

/-- Claim C7: in the Naver fan-out, if at least one sub-fetch fulfills,
`fetchRelatedKeywords` returns normally with an aggregate built only from
fulfilled results (every returned keyword is the tag-stripped form of a
suggestion of some fulfilled sub-fetch); if all sub-fetches fail, it
throws. -/
theorem C7_fanOutAggregation (keyword : String)
    (subFetch : String → Except String (List String))
    (hk : ¬(trimStr keyword = "")) :
    ((∃ t ∈ searchTermsOf keyword, ∃ l, subFetch t = .ok l) →
      ∃ res, fetchRelatedKeywords keyword .naver subFetch = .ok res ∧
        ∀ kd ∈ res, ∃ t ∈ searchTermsOf keyword, ∃ l, subFetch t = .ok l ∧
          ∃ kw ∈ l, kd.keyword = stripTagsStr kw) ∧
    ((∀ t ∈ searchTermsOf keyword, ∀ l, subFetch t ≠ .ok l) →
      ∃ msg, fetchRelatedKeywords keyword .naver subFetch = .error msg) := by
  constructor
  · rintro ⟨t0, ht0, l0, hl0⟩
    have hmem : l0 ∈ ((searchTermsOf keyword).map subFetch).filterMap settlementOk := by
      rw [List.mem_filterMap]
      exact ⟨subFetch t0, List.mem_map_of_mem subFetch ht0, by rw [hl0]; rfl⟩
    have hne : ¬(((searchTermsOf keyword).map subFetch).filterMap settlementOk).isEmpty = true := by
      rw [List.isEmpty_iff]
      intro hnil
      rw [hnil] at hmem
      simp at hmem
    refine ⟨withIds 0 ((dedupe (flatList (fun suggestions => suggestions.map
        (fun kw => stripTagsStr kw))
        (((searchTermsOf keyword).map subFetch).filterMap settlementOk))).take 20), ?_, ?_⟩
    · simp only [fetchRelatedKeywords, if_neg hk]
      rw [if_neg hne]
    · intro kd hkd
      have h1 := keyword_mem_of_mem_withIds _ 0 kd hkd
      have h2 := dedupeAux_subset _ [] kd.keyword (List.take_subset 20 _ h1)
      rw [mem_flatList] at h2
      obtain ⟨sug, hsug, hmem2⟩ := h2
      rw [List.mem_filterMap] at hsug
      obtain ⟨r, hr, hrok⟩ := hsug
      rw [List.mem_map] at hr
      obtain ⟨t, ht, hteq⟩ := hr
      rw [List.mem_map] at hmem2
      obtain ⟨kw, hkw, hkweq⟩ := hmem2
      exact ⟨t, ht, sug, by rw [hteq]; exact settlementOk_eq_some r sug hrok,
        kw, hkw, hkweq.symm⟩
  · intro hfail
    have hnil : ((searchTermsOf keyword).map subFetch).filterMap settlementOk = [] := by
      rw [List.filterMap_eq_nil_iff]
      intro r hr
      rw [List.mem_map] at hr
      obtain ⟨t, ht, hteq⟩ := hr
      cases hrc : r with
      | ok v => exact absurd (hteq.trans hrc) (hfail t ht v)
      | error e => rfl
    refine ⟨naverFailMsg keyword, ?_⟩
    simp only [fetchRelatedKeywords, if_neg hk]
    rw [if_pos (by rw [List.isEmpty_iff]; exact hnil)]

/-- Witness for C7: one fulfilled fan-out term versus all-rejected. -/
theorem C7_fanOutAggregation_witness :
    (∃ res, fetchRelatedKeywords "kw" .naver
        (fun t => if t = "kw" then .ok ["a"] else .error "no") = .ok res ∧
      ∀ kd ∈ res, ∃ t ∈ searchTermsOf "kw", ∃ l,
        (if t = "kw" then (Except.ok ["a"] : Except String (List String))
          else Except.error "no") = Except.ok l ∧
        ∃ kw ∈ l, kd.keyword = stripTagsStr kw) ∧
    (∃ msg, fetchRelatedKeywords "kw" .naver
        (fun _ => .error "no") = .error msg) :=
  ⟨(C7_fanOutAggregation "kw" (fun t => if t = "kw" then .ok ["a"] else .error "no")
      (by decide)).1 ⟨"kw", by decide, ["a"], rfl⟩,
   (C7_fanOutAggregation "kw" (fun _ => .error "no") (by decide)).2
      (fun t _ l h => by simp at h)⟩

/- ### Helper lemmas for the SERP cleaning (claim C10) -/

theorem head_dropWhile_false (p : Char → Bool) :
    ∀ (l : List Char) (c : Char), (l.dropWhile p).head? = some c → p c = false := by
  intro l
  induction l with
  | nil => intro c h; simp [List.dropWhile] at h
  | cons a t ih =>
    intro c h
    rw [List.dropWhile_cons] at h
    split at h
    · exact ih c h
    · simp only [List.head?_cons, Option.some.injEq] at h
      subst h
      rename_i hpa
      exact Bool.eq_false_iff.mpr hpa

theorem dropWhile_eq_self_of_head (p : Char → Bool) (l : List Char)
    (h : ∀ c, l.head? = some c → p c = false) : l.dropWhile p = l := by
  cases l with
  | nil => rfl
  | cons a t =>
    rw [List.dropWhile_cons]
    simp [h a rfl]

theorem head_dropWsEnd : ∀ (l : List Char),
    (dropWsEnd l).head? = l.head? ∨ dropWsEnd l = [] := by
  intro l
  cases l with
  | nil => right; rfl
  | cons c t =>
    simp only [dropWsEnd]
    split
    · right; rfl
    · left; rfl

theorem dropWsEnd_idem : ∀ (l : List Char), dropWsEnd (dropWsEnd l) = dropWsEnd l := by
  intro l
  induction l with
  | nil => rfl
  | cons c t ih =>
    simp only [dropWsEnd]
    split
    · rfl
    · rename_i hcond
      simp only [dropWsEnd, ih]
      rw [if_neg hcond]

theorem trimList_idem (l : List Char) : trimList (trimList l) = trimList l := by
  have h1 : (trimList l).dropWhile isTrimWs = trimList l := by
    apply dropWhile_eq_self_of_head
    intro c hc
    rcases head_dropWsEnd (l.dropWhile isTrimWs) with h | h
    · rw [trimList] at hc
      rw [h] at hc
      exact head_dropWhile_false isTrimWs l c hc
    · rw [trimList, h] at hc
      simp at hc
  calc trimList (trimList l) = dropWsEnd ((trimList l).dropWhile isTrimWs) := rfl
    _ = dropWsEnd (trimList l) := by rw [h1]
    _ = dropWsEnd (dropWsEnd (l.dropWhile isTrimWs)) := rfl
    _ = dropWsEnd (l.dropWhile isTrimWs) := dropWsEnd_idem _
    _ = trimList l := rfl

theorem trimStr_idem (s : String) : trimStr (trimStr s) = trimStr s :=
  congrArg String.mk (trimList_idem s.data)

theorem mapE_mem {α β : Type} (f : α → Except String β) :
    ∀ (l : List α) (res : List β), mapE f l = .ok res →
      ∀ b ∈ res, ∃ a ∈ l, f a = .ok b := by
  intro l
  induction l with
  | nil =>
    intro res h b hb
    simp only [mapE, Except.ok.injEq] at h
    subst h
    simp at hb
  | cons a t ih =>
    intro res h b hb
    rw [mapE] at h
    cases hfa : f a with
    | error e => rw [hfa] at h; simp at h
    | ok b0 =>
      rw [hfa] at h
      cases hmt : mapE f t with
      | error e => rw [hmt] at h; simp at h
      | ok bs =>
        rw [hmt] at h
        simp only [Except.ok.injEq] at h
        subst h
        rcases List.mem_cons.mp hb with rfl | hb2
        · exact ⟨a, by simp, hfa⟩
        · obtain ⟨a2, ha2, hfa2⟩ := ih bs hmt b hb2
          exact ⟨a2, by simp [ha2], hfa2⟩

theorem jsReplaceTrim_shape (v : JsValue) (s : String) (h : jsReplaceTrim v = .ok s) :
    ∃ raw, s = cleanString raw := by
  cases v with
  | jstr str =>
    simp only [jsReplaceTrim, Except.ok.injEq] at h
    exact ⟨str, h.symm⟩
  | jnull => simp [jsReplaceTrim] at h
  | jbool b => simp [jsReplaceTrim] at h
  | jnum n => simp [jsReplaceTrim] at h
  | jarr es => simp [jsReplaceTrim] at h
  | jobj fs => simp [jsReplaceTrim] at h

theorem cleanSearch_shape (v : JsValue) (s : String) (h : cleanSearch v = .ok s) :
    ∃ raw, s = cleanString raw := by
  rw [cleanSearch] at h
  exact jsReplaceTrim_shape _ s h

theorem cleanField_shape (item : JsValue) (k : String) (s : String)
    (h : cleanField item k = .ok s) : ∃ raw, s = cleanString raw := by
  rw [cleanField] at h
  cases hg : jsGetField item k with
  | error e => rw [hg] at h; simp at h
  | ok v =>
    rw [hg] at h
    exact jsReplaceTrim_shape _ s h

theorem cleanPaa_shape (item : JsValue) (p : PaaItem) (h : cleanPaa item = .ok p) :
    (∃ r1, p.question = cleanString r1) ∧ (∃ r2, p.answer = cleanString r2) ∧
    (∃ r3, p.content_gap_analysis = cleanString r3) := by
  rw [cleanPaa] at h
  cases h1 : cleanField item "question" with
  | error e => rw [h1] at h; simp at h
  | ok q =>
    rw [h1] at h
    cases h2 : cleanField item "answer" with
    | error e => rw [h2] at h; simp at h
    | ok a =>
      rw [h2] at h
      cases h3 : cleanField item "content_gap_analysis" with
      | error e => rw [h3] at h; simp at h
      | ok g =>
        rw [h3] at h
        simp only [Except.ok.injEq] at h
        subst h
        exact ⟨cleanField_shape _ _ q h1, cleanField_shape _ _ a h2,
          cleanField_shape _ _ g h3⟩

/-- Claim C10, amended: whenever `generateRelatedKeywords` returns
normally, `people_also_ask` has at most 5 entries and every string field
of the result is the single left-to-right-pass citation-strip of a raw
field followed by `trim` — hence no field has leading or trailing
whitespace. The single-pass strip can, however, leave marker-shaped text
behind when the removal of a nested marker re-joins digits and brackets
(the counterexample), so "contains no citation marker" does not hold of
the output in general. -/
theorem C10_serpCleaning (text : String) (d : GoogleSerpData)
    (h : generateRelatedKeywords text = .ok d) :
    d.people_also_ask.length ≤ 5 ∧
    noEdgeWsSerp d = true ∧
    ∀ s ∈ serpStrings d, ∃ raw, s = cleanString raw := by
  rw [generateRelatedKeywords] at h
  cases hx : extractJsonFromText text with
  | error m => simp only [hx] at h; simp at h
  | ok result =>
    simp only [hx] at h
    cases hp : processSerp result with
    | error m => simp only [hp] at h; simp at h
    | ok d0 =>
      simp only [hp, Except.ok.injEq] at h
      subst h
      rw [processSerp] at hp
      split at hp
      · simp at hp
      · split at hp
        case _ rs paas _ _ =>
          cases hm1 : mapE cleanPaa paas with
          | error e => rw [hm1] at hp; simp at hp
          | ok cleanedPaas =>
            rw [hm1] at hp
            cases hm2 : mapE cleanSearch rs with
            | error e => rw [hm2] at hp; simp at hp
            | ok cleanedRS =>
              rw [hm2] at hp
              simp only [Except.ok.injEq] at hp
              subst hp
              have hshape : ∀ s ∈ serpStrings ⟨cleanedRS, cleanedPaas.take 5⟩,
                  ∃ raw, s = cleanString raw := by
                intro s hs
                rw [serpStrings] at hs
                rcases List.mem_append.mp hs with hs1 | hs2
                · obtain ⟨v, _, hok⟩ := mapE_mem cleanSearch rs cleanedRS hm2 s hs1
                  exact cleanSearch_shape v s hok
                · rw [mem_flatList] at hs2
                  obtain ⟨p, hp2, hsp⟩ := hs2
                  have hp3 : p ∈ cleanedPaas := List.take_subset 5 _ hp2
                  obtain ⟨item, _, hokp⟩ := mapE_mem cleanPaa paas cleanedPaas hm1 p hp3
                  obtain ⟨⟨r1, e1⟩, ⟨r2, e2⟩, ⟨r3, e3⟩⟩ := cleanPaa_shape item p hokp
                  simp only [List.mem_cons, List.not_mem_nil, or_false] at hsp
                  rcases hsp with rfl | rfl | rfl
                  · exact ⟨r1, e1⟩
                  · exact ⟨r2, e2⟩
                  · exact ⟨r3, e3⟩
              refine ⟨List.length_take_le 5 _, ?_, hshape⟩
              rw [noEdgeWsSerp, List.all_eq_true]
              intro s hs
              obtain ⟨raw, hraw⟩ := hshape s hs
              rw [hraw]
              simp only [cleanString, decide_eq_true_eq]
              exact trimStr_idem _
        case _ h1 h2 => simp at hp

/-- Witness for the amended C10 on a concrete extracted response. -/
theorem C10_serpCleaning_witness :
    (GoogleSerpData.mk ["[1]"] []).people_also_ask.length ≤ 5 ∧
    noEdgeWsSerp ⟨["[1]"], []⟩ = true ∧
    ∀ s ∈ serpStrings ⟨["[1]"], []⟩, ∃ raw, s = cleanString raw :=
  C10_serpCleaning "\x7b\"related_searches\": [\"[1[2]]\"], \"people_also_ask\": []\x7d"
    ⟨["[1]"], []⟩ rfl

/-- Claim C10 counterexample: on the AI response whose single related
search is `[1[2]]`, the single-pass citation replacement removes `[2]`
and re-joins `[1]`, so the returned result still contains a citation
marker of the form `[n]` — the claim that every string field contains no
citation marker is false, even though the function returns normally. -/
theorem C10_cex :
    generateRelatedKeywords
        "\x7b\"related_searches\": [\"[1[2]]\"], \"people_also_ask\": []\x7d" =
      .ok ⟨["[1]"], []⟩ ∧
    citationFreeSerp ⟨["[1]"], []⟩ = false :=
  ⟨rfl, rfl⟩
